import Mathlib

/-!
Verification development for the VietLegalQA answer-extraction core.

This file gives a shallow embedding, in Lean 4, of the answer-span
extraction, question-synthesis and context-alignment code of the
repository, and proves or refutes the stated properties of that code.

Python strings are modelled as `List Char`; the Python string operations
used by the code (`find`, `join`, `split`, `strip`, `replace` with
count 1, slicing, `upper`) are reimplemented below with their CPython
semantics.  Python `sorted` with a `key` function is a stable sort; it
is modelled by insertion sorts `isortKey` (ascending) and `isortKeyRev`
(`reverse=True`, descending) that preserve the relative order of
elements with equal keys, exactly as CPython does.

The stanza NLP pipelines (`self.POS`, `self.pos`) are external black
boxes; they are modelled as an explicit function argument
`pos : Str → List Word` returning the annotated words of the text
(the `.sentences[0].words` access of the code).  Constituency trees are
modelled by the inductive `Stanza.Tree`; a node is a leaf iff it has no
children, as in `stanza.models.constituency.parse_tree.Tree.is_leaf`.
-/

/-- Python `str` modelled as a list of characters. -/
abbrev Str := List Char

/-- Position of the first occurrence of `n` as a contiguous substring of
`h`, if any; the recursion mirrors the left-to-right scan of CPython
`str.find`.  An empty needle is found at position 0. -/
def findSub (h n : Str) : Option Nat :=
  if n.isPrefixOf h then some 0
  else
    match h with
    | [] => none
    | _ :: t => (findSub t n).map (· + 1)

/-- Python `h.find(n)`: index of the first occurrence, or `-1`. -/
def pyFind (h n : Str) : Int :=
  match findSub h n with
  | none => -1
  | some i => (i : Int)

/-- Python `h[a:b]` for `0 ≤ a ≤ b` (the only shape the code uses). -/
def pySlice (s : Str) (a b : Nat) : Str :=
  (s.drop a).take (b - a)

/-- Python `sep.join(xs)`. -/
def joinSep (sep : Str) : List Str → Str
  | [] => []
  | [x] => x
  | x :: y :: t => x ++ sep ++ joinSep sep (y :: t)

/-- Python `s.split(",")`: split on every comma, keeping empty pieces. -/
def splitOnComma : Str → List Str
  | [] => [[]]
  | c :: t =>
    match splitOnComma t, decEq c ',' with
    | r, isTrue _ => [] :: r
    | [], isFalse _ => [[c]]
    | x :: xs, isFalse _ => (c :: x) :: xs

/-- Python `s.strip()`: drop whitespace from both ends. -/
def pyStrip (s : Str) : Str :=
  ((s.dropWhile Char.isWhitespace).reverse.dropWhile Char.isWhitespace).reverse

/-- Python `s.split()` with no argument: maximal runs of non-whitespace. -/
def pyWords : Str → List Str
  | [] => []
  | c :: t =>
    let r := pyWords t
    if Char.isWhitespace c then r
    else
      match t, r with
      | [], _ => [[c]]
      | d :: _, [] => if Char.isWhitespace d then [[c]] else [[c]]
      | d :: _, w :: ws => if Char.isWhitespace d then [c] :: w :: ws else (c :: w) :: ws

/-- Python `s.replace(old, new, 1)`: replace the first occurrence only. -/
def replaceFirst (s old new : Str) : Str :=
  match findSub s old with
  | none => s
  | some i => s.take i ++ new ++ s.drop (i + old.length)

/-- Python `s.upper()` (the labels involved are ASCII). -/
def strUpper (s : Str) : Str := s.map Char.toUpper

/-- Stable insertion into an ascending-by-key list: a new element goes
before the first element of greater-or-equal key, which is where
CPython's stable `sorted(key=k)` leaves an earlier-listed element
relative to later ones of equal key. -/
def insortKey (k : α → Nat) (x : α) : List α → List α
  | [] => [x]
  | y :: ys => if k x ≤ k y then x :: y :: ys else y :: insortKey k x ys

/-- Python `sorted(l, key=k)`: ascending, stable. -/
def isortKey (k : α → Nat) : List α → List α
  | [] => []
  | x :: xs => insortKey k x (isortKey k xs)

/-- Stable insertion for descending order: a new element goes before the
first element of smaller-or-equal key, so that elements of equal key
keep their original relative order, as CPython's
`sorted(key=k, reverse=True)` does (the inserted element is always the
earliest-listed one). -/
def insortKeyRev (k : α → Nat) (x : α) : List α → List α
  | [] => [x]
  | y :: ys => if k y ≤ k x then x :: y :: ys else y :: insortKeyRev k x ys

/-- Python `sorted(l, key=k, reverse=True)`: descending, stable. -/
def isortKeyRev (k : α → Nat) : List α → List α
  | [] => []
  | x :: xs => insortKeyRev k x (isortKeyRev k xs)

namespace Stanza

mutual

/-- Constituency parse tree node, as in
`stanza.models.constituency.parse_tree.Tree`: a label and ordered
children; a node is a leaf iff it has no children.  The children are a
mutually inductive list so that every recursion over trees is plain
structural recursion (and hence computes definitionally). -/
inductive Tree where
  | mk (label : Str) (children : TreeList)
deriving DecidableEq

/-- Ordered children of a tree node. -/
inductive TreeList where
  | nil
  | cons (head : Tree) (tail : TreeList)
deriving DecidableEq

end

/-- Building a child list from a plain list, for concrete examples. -/
def TreeList.ofList : List Tree → TreeList
  | [] => .nil
  | t :: ts => .cons t (TreeList.ofList ts)

/-- Stanza `Tree.is_leaf`. -/
def Tree.isLeaf : Tree → Bool
  | .mk _ .nil => true
  | .mk _ (.cons _ _) => false

mutual

/-- Stanza `Tree.leaf_labels` of a single node: labels of the leaves,
left to right; a leaf contributes its own label. -/
def leafLabels : Tree → List Str
  | .mk lab .nil => [lab]
  | .mk _ (.cons c cs) => leafLabelsList (.cons c cs)

/-- Stanza `Tree.leaf_labels` over a child list. -/
def leafLabelsList : TreeList → List Str
  | .nil => []
  | .cons t ts => leafLabels t ++ leafLabelsList ts

end

/-- Annotated word of a stanza document: surface text and lemma (the
only fields the embedded code reads). -/
structure Word where
  text : Str
  lemma_ : Str

/-- Named entity of a stanza document (`doc.ents` item): text, type and
end character offset. -/
structure Entity where
  text : Str
  type : Str
  endChar : Nat

end Stanza

/-- Python-level error kinds raised by the embedded code. -/
inductive PyError where
  | attributeError
  | typeError
  | indexError
deriving DecidableEq

deriving instance DecidableEq for Except

namespace AnswerExtraction

/-- Python equality between a stanza `Word` object and a `str`.
`AnswerExtractor.get_answer_start` calls `self.is_stop(word)` passing
the stanza `Word` object itself rather than `word.text`, although the
signature of `is_stop` annotates the parameter as `str`.
`stanza.models.common.doc.Word` defines no `__eq__`, so CPython falls
back to identity comparison between the `Word` object and each `str`
entry, which is `False` for every entry. -/
def pyEqWordStr (_ : Stanza.Word) (_ : Str) : Bool := false

/-- Embeds `AnswerExtractor.is_stop` (line 78-79) as invoked by the
code: `word in self.STOPWORDS` where `word` is a stanza `Word` object
and `self.STOPWORDS` a list of strings. -/
def is_stop (word : Stanza.Word) (stopwords : List Str) : Bool :=
  stopwords.any (fun s => pyEqWordStr word s)


/-- Lines 82-85 of `answer_extraction.py`: the lemmas of the
POS-annotated question words that pass the (broken) stopword test. -/
def q_tokens (pos : Str → List Stanza.Word) (stopwords : List Str)
    (question : Str) : List Str :=
  ((pos question).filter (fun w => !is_stop w stopwords)).map (fun w => w.lemma_)

/-- Lines 90-93: relevance score of a context segment, counting its
annotated words that pass the stopword test and whose lemma is among
the question token lemmas. -/
def segScore (pos : Str → List Stanza.Word) (stopwords : List Str)
    (qts : List Str) (ctx : Str) : Nat :=
  ((pos ctx).filter (fun w => !is_stop w stopwords && qts.contains w.lemma_)).length

/-- Lines 87-94: every context segment that contains `answer` as a
literal substring, paired with its relevance score, in segment order. -/
def answer_rank (pos : Str → List Stanza.Word) (stopwords : List Str)
    (answer question : Str) (context : List Str) : List (Nat × Str) :=
  let qts := q_tokens pos stopwords question
  (context.filter (fun ctx => pyFind ctx answer != -1)).map
    (fun ctx => (segScore pos stopwords qts ctx, ctx))

/-- Embeds `AnswerExtractor.get_answer_start` (lines 81-105): rank the
answer-containing segments, sort ascending by score (Python `sorted`,
stable), take the first, and return the position of that segment in the
space-joined context plus the position of the answer in the segment;
`-1` when no segment contains the answer. -/
def get_answer_start (pos : Str → List Stanza.Word) (stopwords : List Str)
    (answer question : Str) (context : List Str) : Int :=
  match isortKey Prod.fst (answer_rank pos stopwords answer question context) with
  | [] => -1
  | (_, refined) :: _ => pyFind (joinSep [' '] context) refined + pyFind refined answer

mutual

/-- Recursion of `extract_s_clauses` (107-118): a leaf yields nothing;
an inner node yields the clauses of its children in order, then its own
stripped space-joined leaf text when its label is exactly `"S"` and its
leaf count exceeds the threshold. -/
def extract_s_clauses (threshold : Nat) : Stanza.Tree → List Str
  | .mk _ .nil => []
  | .mk lab (.cons c cs) =>
    extract_s_clausesList threshold (.cons c cs) ++
      (if lab = ['S'] ∧ threshold < (Stanza.leafLabelsList (.cons c cs)).length
       then [pyStrip (joinSep [' '] (Stanza.leafLabelsList (.cons c cs)))]
       else [])

/-- Clause lists of a list of children, in order (the `for leaf in
node.children` loop of `extract_s_clauses`). -/
def extract_s_clausesList (threshold : Nat) : Stanza.TreeList → List Str
  | .nil => []
  | .cons t ts => extract_s_clauses threshold t ++ extract_s_clausesList threshold ts

end

/-- While-loop of lines 129-131 of `extract_comma_clauses`: while the
running fragment is shorter than 10 characters and fragments remain at
the shared index `idx`, comma-join the stripped running fragment with
the stripped fragment at `idx` and advance `idx`.  The suffix
`cc[idx:]` of the fragment list is carried instead of `idx` itself, so
advancing `idx` drops the head of the suffix. -/
def commaMerge (clause : Str) : List Str → Str × List Str
  | [] => (clause, [])
  | nxt :: rest =>
    if clause.length < 10 then
      commaMerge (joinSep [',', ' '] [pyStrip clause, pyStrip nxt]) rest
    else (clause, nxt :: rest)

/-- Embeds `AnswerExtractor.extract_comma_clauses` (120-134): split the
space-joined leaf text on commas; if more than one fragment, scan the
original fragment list left to right, emitting each (possibly merged)
running fragment.  The shared index `idx` (represented by the remaining
suffix) advances past merged fragments but does not affect which
fragments the outer `for` visits, so a merged-in fragment is visited
again; `idx += 1` at the top of the loop body drops one element of the
suffix. -/
def extract_comma_clauses (tree : Stanza.Tree) : List Str :=
  let comma_clauses := splitOnComma (joinSep [' '] (Stanza.leafLabels tree))
  if 1 < comma_clauses.length then
    (comma_clauses.foldl
      (fun (acc : List Str × List Str) clause =>
        let r := commaMerge clause (acc.2.drop 1)
        (acc.1 ++ [r.1], r.2))
      (([] : List Str), comma_clauses)).1
  else []

/-- Embeds `AnswerExtractor.extract_clauses` (136-151): S-clauses then
comma-clauses of each sentence tree, concatenated over the sentences,
then sorted ascending by string length (`sorted(clauses, key=len)`,
stable). -/
def extract_clauses (sents : List Stanza.Tree) : List Str :=
  isortKey List.length
    ((sents.map (fun c => extract_s_clauses 3 c ++ extract_comma_clauses c)).join)

mutual

/-- Recursion of `extract_pos` (153-164): a leaf yields nothing; an
inner node yields the spans of its children in order, then its own
space-joined leaf text when `pos_tag == node.label.upper()`. -/
def extract_pos (pos_tag : Str) : Stanza.Tree → List Str
  | .mk _ .nil => []
  | .mk lab (.cons c cs) =>
    extract_posList pos_tag (.cons c cs) ++
      (if pos_tag = strUpper lab
       then [joinSep [' '] (Stanza.leafLabelsList (.cons c cs))]
       else [])

/-- Span lists of a list of children, in order (the `for child in
node.children` loop of `extract_pos`). -/
def extract_posList (pos_tag : Str) : Stanza.TreeList → List Str
  | .nil => []
  | .cons t ts => extract_pos pos_tag t ++ extract_posList pos_tag ts

end

/-- Clause scan of `extract_answer_ne` (lines 306-310): the question is
the first clause containing the entity text, with
`clause.replace(answer.text, answer.text, 1)` applied — the first
occurrence is replaced by the answer text itself. -/
def ne_question_from_clauses (clauses : List Str) (answerText : Str) : Option Str :=
  (clauses.find? (fun clause => pyFind clause answerText != -1)).map
    (fun clause => replaceFirst clause answerText answerText)

/-- Emitted QA record (`to_qa`, lines 186-208); the `id` string, formed
from the article url and a running counter, and the constant
`is_impossible=False` flag carry no information for the properties
below and are omitted. -/
structure QA where
  question : Str
  answer : Str
  answer_type : Str
  answer_start : Int
  answer_id : Nat
deriving DecidableEq

/-- Per-answer body of the emission loop of `extract_answer_pos`
(lines 236-269): skip empty answers; the question is the first clause
containing the answer, its first occurrence replaced by
`"PLACEHOLDER"`; skip when no clause matches (`if not question`, which
in Python also catches an empty question string); skip when the
alignment offset is `-1`; otherwise emit the pair. -/
def processSpanAnswer (pos : Str → List Stanza.Word) (stopwords : List Str)
    (clauses context : List Str) (span_type : Str) (answer_id : Nat)
    (answer : Str) : Option QA :=
  if answer.length = 0 then none
  else
    match clauses.find? (fun clause =>
        decide (answer.length ≠ 0) && pyFind clause answer != -1) with
    | none => none
    | some clause =>
      let question := replaceFirst clause answer "PLACEHOLDER".toList
      if question = [] then none
      else
        let answer_start := get_answer_start pos stopwords answer question context
        if answer_start = -1 then none
        else some ⟨question, answer, span_type, answer_start, answer_id⟩

/-- QA pairs emitted for one summary by `extract_answer_pos`: the
emission loop over the extracted spans, in order. -/
def qas_for_summary (pos : Str → List Stanza.Word) (stopwords : List Str)
    (clauses context : List Str) (span_type : Str) (answer_id : Nat)
    (spans : List Str) : List QA :=
  spans.filterMap (processSpanAnswer pos stopwords clauses context span_type answer_id)

/-- Span types of `utils.SPAN_TYPES`. -/
def SPAN_TYPES : List Str := [['N', 'E'], ['N', 'P'], ['A', 'P'], ['V', 'P'], ['S']]

/-- Value of the instance attribute `span_type` on an `AnswerExtractor`
object: `__init__` assigns only `args`, `data`, `STOPWORDS`, `PARSER`
and `POS`, so the attribute does not exist and reading `self.span_type`
raises `AttributeError`. -/
def instance_attr_span_type : Option Str := none

/-- Observable step of `AnswerExtractor.extract`: an info log, a call
to `extract_answer` (which performs the extraction and writes the
output file), or a logged, swallowed error (`except ... logging.error`). -/
inductive Action where
  | info (msg : Str)
  | extract_answer (span_type : Str)
  | logError (e : PyError)
deriving DecidableEq

/-- Embeds `AnswerExtractor.extract` (392-403): when the uppercased
`self.args.span_type` is `"ALL"`, log and run `extract_answer` for
every span type; otherwise evaluate `self.span_type` — an attribute
never assigned — whose `AttributeError` is caught by the surrounding
handler and only logged. -/
def extract (args_span_type : Str) : List Action :=
  if strUpper args_span_type = "ALL".toList then
    Action.info "Extracting all span types...".toList
      :: SPAN_TYPES.map Action.extract_answer
  else
    match instance_attr_span_type with
    | none => [Action.logError PyError.attributeError]
    | some v =>
      if SPAN_TYPES.contains v then
        [Action.info "Extracting...".toList, Action.extract_answer args_span_type]
      else []

end AnswerExtraction

namespace Construct

/-- Embeds `tree_to_text` of `modules/construct/utils.py`:
`sep.join(tree.leaf_labels())`. -/
def tree_to_text (tree : Stanza.Tree) (sep : Str) : Str :=
  joinSep sep (Stanza.leafLabels tree)

mutual

/-- Recursion of `get_pos` of `modules/construct/utils.py` (56-68): a
leaf yields nothing; an inner node yields its own space-joined leaf
text first, when `pos_tag == node.label.upper()`, and then the keys of
its children in order — the node is appended BEFORE its children are
visited. -/
def get_pos (pos_tag : Str) : Stanza.Tree → List Str
  | .mk _ .nil => []
  | .mk lab (.cons c cs) =>
    (if pos_tag = strUpper lab
     then [tree_to_text (.mk lab (.cons c cs)) [' ']]
     else []) ++ get_posList pos_tag (.cons c cs)

/-- Key lists of a list of children, in order (the `for child in
node.children` loop of `get_pos`). -/
def get_posList (pos_tag : Str) : Stanza.TreeList → List Str
  | .nil => []
  | .cons t ts => get_pos pos_tag t ++ get_posList pos_tag ts

end

mutual

/-- Recursion of `extract_clauses_constituent` of
`modules/construct/utils.py` (84-100): a leaf yields nothing; an inner
node yields its own clause first, when its label is exactly `"S"` and
its leaf count exceeds the threshold, then the clauses of its children
in order. -/
def extract_clauses_constituent (threshold : Nat) : Stanza.Tree → List Str
  | .mk _ .nil => []
  | .mk lab (.cons c cs) =>
    (if lab = ['S'] ∧ threshold < (Stanza.leafLabelsList (.cons c cs)).length
     then [tree_to_text (.mk lab (.cons c cs)) [' ']]
     else []) ++ extract_clauses_constituentList threshold (.cons c cs)

/-- Clause lists of a list of children, in order (the `for child in
node.children` loop of `extract_clauses_constituent`). -/
def extract_clauses_constituentList (threshold : Nat) : Stanza.TreeList → List Str
  | .nil => []
  | .cons t ts =>
    extract_clauses_constituent threshold t
      ++ extract_clauses_constituentList threshold ts

end

/-- Python `repr` of a pair `(j, s)` of an int and a string, as
interpolated by the f-string `f" , {next_clause}"` of
`extract_clauses_comma`, where `next_clause` is an item of
`enumerate(...)` and hence a tuple. -/
def reprPair (j : Nat) (s : Str) : Str :=
  ['('] ++ (Nat.repr j).toList ++ [',', ' ', Char.ofNat 39] ++ s ++ [Char.ofNat 39, ')']

/-- Inner loop of `extract_clauses_comma` (109-113): for each later
fragment (as an `enumerate` tuple), while the running clause has fewer
than `threshold` whitespace-separated words, append `" , "` followed by
the `repr` of the tuple; otherwise break.  The loop never consumes
fragments from the outer iteration. -/
def commaExtend (threshold : Nat) : Str → List (Nat × Str) → Str
  | clause, [] => clause
  | clause, (j, nxt) :: rest =>
    if (pyWords clause).length < threshold then
      commaExtend threshold (clause ++ [' ', ',', ' '] ++ reprPair j nxt) rest
    else clause

/-- Embeds `extract_clauses_comma` of `modules/construct/utils.py`
(103-117): split the sentence text on commas and strip each fragment;
when there is more than one fragment, every fragment is emitted, each
first extended by the inner loop over the tuples of
`enumerate(comma_clauses[idx + 1:])`. -/
def extract_clauses_comma (sent : Str) (threshold : Nat) : List Str :=
  let comma_clauses := (splitOnComma sent).map pyStrip
  if 1 < comma_clauses.length then
    comma_clauses.enum.map
      (fun p => commaExtend threshold p.2 ((comma_clauses.drop (p.1 + 1)).enum))
  else []

/-- Sentence of an annotated document, as consumed by the construct
module: raw text (`sent.text`), constituency tree and the end character
offset of its last token (`sent.tokens[-1].end_char`). -/
structure CSentence where
  text : Str
  constituency : Stanza.Tree
  lastTokenEndChar : Nat

/-- Embeds `extract_clauses` of `modules/construct/utils.py` (120-151):
constituent clauses of each sentence tree, then comma clauses of the
raw sentence text, concatenated over sentences, sorted by length with
`reverse=True` — DESCENDING. -/
def extract_clauses (sents : List CSentence) : List Str :=
  isortKeyRev List.length
    ((sents.map (fun s =>
        extract_clauses_constituent 3 s.constituency
          ++ extract_clauses_comma s.text 5)).join)

/-- Embeds `is_stop` of `modules/construct/utils.py` (154-155) as
invoked by `get_answer_start`: the `word` argument is the stanza `Word`
object of the annotated question (not a string), so the membership test
against the string list is `False` for every entry, exactly as in
`AnswerExtraction.is_stop`. -/
def is_stop (word : Stanza.Word) (stopwords : List Str) : Bool :=
  stopwords.any (fun s => AnswerExtraction.pyEqWordStr word s)

/-- Embeds `get_answer_start` of `modules/construct/utils.py`
(158-178): rank EVERY context segment (no answer-containment filter) by
the number of question-token lemmas occurring in it as substrings; sort
with `reverse=True` (stable, descending); return the pair of the
segment index and `ctx.find(answer)` of the top-scoring segment — a
segment-local offset that is `-1` whenever that segment does not
contain the answer.  Indexing `context_rank[0]` raises `IndexError`
when the context is empty. -/
def get_answer_start (pos : Str → List Stanza.Word) (stopwords : List Str)
    (answer question : Str) (context : List Str) : Except PyError (Nat × Int) :=
  let q_tokens :=
    ((pos question).filter (fun w => !is_stop w stopwords)).map (fun w => w.lemma_)
  let context_rank := context.enum.map
    (fun p => (p.1, (q_tokens.filter (fun w => pyFind p.2 w != -1)).length,
      pyFind p.2 answer))
  match isortKeyRev (fun t => t.2.1) context_rank with
  | [] => .error .indexError
  | t :: _ => .ok (t.1, t.2.2)

/-- Emitted QA pair of the construct pipeline (`QAPair` of
`data/qa.py` as filled in `constructor.py`): the recorded
context-segment index (second half of the `article` field
`f"{article.id}__{context_id}"`), question, answer text, segment-local
start offset and type label; the id strings carry no information for
the properties below and are omitted. -/
structure QAPair where
  context_id : Nat
  question : Str
  answer : Str
  start : Int
  type : Str
deriving DecidableEq

/-- Per-entity body of the NE branch of `QAConstruct.__call__`
(constructor.py, 49-97): skip empty entity texts; candidate questions
are all clauses containing the entity text, the first occurrence
replaced by the entity type; when none, fall back to the sentences
whose last token ends at or after the entity, substituted the same way;
take the first candidate; drop the pair when the returned `start` is
`-1`, else emit it with the returned context index.  Exceptions from
`get_answer_start` are re-raised (`raise e`). -/
def ne_step (pos : Str → List Stanza.Word) (stopwords : List Str)
    (clauses : List Str) (sentences : List CSentence) (context : List Str)
    (answer : Stanza.Entity) : Except PyError (Option QAPair) :=
  if answer.text.length = 0 then .ok none
  else
    let questions :=
      (clauses.filter (fun clause => pyFind clause answer.text != -1)).map
        (fun clause => replaceFirst clause answer.text answer.type)
    let questions :=
      if questions = [] then
        ((sentences.filter (fun s => answer.endChar ≤ s.lastTokenEndChar)).map
          (fun s => replaceFirst (tree_to_text s.constituency [' ']) answer.text
            answer.type))
      else questions
    match questions with
    | [] => .ok none
    | question :: _ =>
      match get_answer_start pos stopwords answer.text question context with
      | .error e => .error e
      | .ok (context_id, start) =>
        if start = -1 then .ok none
        else .ok (some ⟨context_id, question, answer.text, start, answer.type⟩)

end Construct

namespace Extract

/-- Embeds `Extractor.get_answer_start` of
`models/extract/extractor.py` (26-51).  The loop `for word in question`
iterates over the CHARACTERS of the question string and calls
`is_stop(word)` with a single argument, while the imported
`utils.is_stop` requires three parameters (`self`, `word`,
`stopwords`); CPython therefore raises `TypeError` on the first
iteration, i.e. whenever `question` is non-empty.  For the empty
question both loops run zero times, every answer-containing segment
scores 0, and `sorted(..., reverse=True)` (stable) keeps the first
candidate first; the offset is then computed as in the script version. -/
def get_answer_start (pos : Str → List Stanza.Word)
    (answer question : Str) (context : List Str) : Except PyError Int :=
  let _q_nlp := pos question
  match question with
  | _ :: _ => .error .typeError
  | [] =>
    let ctx_rank := (context.filter (fun ctx => pyFind ctx answer != -1)).map
      (fun ctx => ((0 : Nat), ctx))
    match isortKeyRev Prod.fst ctx_rank with
    | [] => .ok (-1)
    | (_, refined) :: _ =>
      .ok (pyFind (joinSep [' '] context) refined + pyFind refined answer)

end Extract

/-- Label of a tree node. -/
def Stanza.Tree.label : Stanza.Tree → Str
  | .mk lab _ => lab

/-- Children of a tree node. -/
def Stanza.Tree.children : Stanza.Tree → Stanza.TreeList
  | .mk _ cs => cs

mutual

/-- All nodes of a tree in postorder: the nodes of the children in
order, then the node itself; leaves included.  Used to characterise
the traversal order of the span extractors. -/
def subtreesPost : Stanza.Tree → List Stanza.Tree
  | .mk lab cs => subtreesPostList cs ++ [.mk lab cs]

/-- Postorder nodes of a child list, in order. -/
def subtreesPostList : Stanza.TreeList → List Stanza.Tree
  | .nil => []
  | .cons t ts => subtreesPost t ++ subtreesPostList ts

end

mutual

/-- All nodes of a tree in preorder: the node itself, then the nodes of
the children in order; leaves included. -/
def subtreesPre : Stanza.Tree → List Stanza.Tree
  | .mk lab cs => .mk lab cs :: subtreesPreList cs

/-- Preorder nodes of a child list, in order. -/
def subtreesPreList : Stanza.TreeList → List Stanza.Tree
  | .nil => []
  | .cons t ts => subtreesPre t ++ subtreesPreList ts

end

/-- Space-joined leaf text of a node, the
`" ".join(node.leaf_labels())` rendering used by both span
extractors. -/
def renderNode (n : Stanza.Tree) : Str := joinSep [' '] (Stanza.leafLabels n)

/-- Match test shared by both span extractors, on non-leaf nodes only:
the uppercased node label equals the tag. -/
def tagMatch (tag : Str) (n : Stanza.Tree) : Bool :=
  !n.isLeaf && tag == strUpper n.label

/-- Context segments of the worked alignment example of the spec. -/
def exCtx9 : List Str :=
  ["Ong A bi phat 5 nam tu .".toList, "Ong A khang cao .".toList]

/-- Answer of the worked alignment example. -/
def exAns9 : Str := "5 nam tu".toList

/-- Annotation function whose question lemmas favour the second
segment of `exCtx9` (`khang` occurs only there). -/
def exPos9 : Str → List Stanza.Word :=
  fun _ => [⟨"khang".toList, "khang".toList⟩]

/-- Annotation function returning no words, so that every question
token list is empty. -/
def exPosEmpty : Str → List Stanza.Word := fun _ => []

/-- Context segments with two answer-containing segments of distinct
relevance scores under `exPos8`. -/
def exCtx8 : List Str := ["ax b".toList, "x c".toList]

/-- Annotation function giving the question the lemma `b`, the first
segment of `exCtx8` the lemma `b` (score 1) and the second the lemma
`c` (score 0). -/
def exPos8 : Str → List Stanza.Word := fun s =>
  if s = "ax b".toList then [⟨"b".toList, "b".toList⟩]
  else if s = "x c".toList then [⟨"c".toList, "c".toList⟩]
  else [⟨"q".toList, "b".toList⟩]

/-- Annotation function giving every text the single lemma `a`. -/
def exPosA : Str → List Stanza.Word :=
  fun _ => [⟨"a".toList, "a".toList⟩]

/-- Named entity `x` of type `T` used by the construct counterexample. -/
def exEntC1 : Stanza.Entity := ⟨"x".toList, "T".toList, 0⟩

/-- QA pair emitted by the construct pipeline on the counterexample
input: segment index 1, segment-local offset 1. -/
def exPairC1 : Construct.QAPair := ⟨1, "yT".toList, "x".toList, 1, "T".toList⟩

/-- Nested same-tag tree: an `NP` node whose first child is again an
`NP` node (rendering `a`), second child a leaf `b`. -/
def exT6 : Stanza.Tree :=
  .mk "NP".toList (.ofList
    [.mk "NP".toList (.ofList [.mk "a".toList .nil]), .mk "b".toList .nil])

/-- Single leaf whose label uppercases to `NP`. -/
def exLeaf6 : Stanza.Tree := .mk "np".toList .nil

/-- Sentence tree with a nested `S` subtree: the root `S` has five
leaves, its first child is an `S` with four leaves, so both exceed the
threshold 3. -/
def exTreeC3 : Stanza.Tree :=
  .mk "S".toList (.ofList
    [.mk "S".toList (.ofList
      [.mk "a".toList .nil, .mk "b".toList .nil, .mk "c".toList .nil,
       .mk "d".toList .nil]),
     .mk "e".toList .nil])

/-- Construct-module sentence wrapping `exTreeC3`, with comma-free raw
text. -/
def exSentC3 : Construct.CSentence := ⟨"x".toList, exTreeC3, 0⟩

/-- Sentence tree whose leaf text is `a , longer fragment here`, the
comma-fragment example of the spec. -/
def exTreeC4 : Stanza.Tree :=
  .mk "R".toList (.ofList
    [.mk "a".toList .nil, .mk ",".toList .nil, .mk "longer".toList .nil,
     .mk "fragment".toList .nil, .mk "here".toList .nil])

/-- Stopword list containing the single word `va`. -/
def exStw7 : List Str := ["va".toList]

/-- Annotation function returning one word whose text and lemma are the
stopword `va`. -/
def exPos7 : Str → List Stanza.Word :=
  fun _ => [⟨"va".toList, "va".toList⟩]

/-- Clause containing the entity text `Ong A`. -/
def exClauses5 : List Str := ["Ong A bi phat".toList]

/-- Entity text of the question-synthesis counterexample. -/
def exAns5 : Str := "Ong A".toList

theorem mem_insortKeyRev (k : α → Nat) (x : α) (l : List α) (a : α) :
    a ∈ insortKeyRev k x l ↔ a = x ∨ a ∈ l := by
  induction l with
  | nil => simp [insortKeyRev]
  | cons y ys ih =>
    by_cases h : k y ≤ k x <;> simp [insortKeyRev, h, ih] <;> tauto

theorem mem_isortKeyRev (k : α → Nat) (l : List α) (a : α) :
    a ∈ isortKeyRev k l ↔ a ∈ l := by
  induction l with
  | nil => simp [isortKeyRev]
  | cons x xs ih => simp [isortKeyRev, mem_insortKeyRev, ih]

theorem mem_insortKey (k : α → Nat) (x : α) (l : List α) (a : α) :
    a ∈ insortKey k x l ↔ a = x ∨ a ∈ l := by
  induction l with
  | nil => simp [insortKey]
  | cons y ys ih =>
    by_cases h : k x ≤ k y <;> simp [insortKey, h, ih] <;> tauto

theorem mem_isortKey (k : α → Nat) (l : List α) (a : α) :
    a ∈ isortKey k l ↔ a ∈ l := by
  induction l with
  | nil => simp [isortKey]
  | cons x xs ih => simp [isortKey, mem_insortKey, ih]

theorem pairwise_insortKey (k : α → Nat) (x : α) (l : List α)
    (h : l.Pairwise (fun a b => k a ≤ k b)) :
    (insortKey k x l).Pairwise (fun a b => k a ≤ k b) := by
  induction l with
  | nil => simp [insortKey]
  | cons y ys ih =>
    rcases List.pairwise_cons.mp h with ⟨hy, hys⟩
    by_cases hxy : k x ≤ k y
    · rw [insortKey, if_pos hxy]
      refine List.pairwise_cons.mpr ⟨?_, h⟩
      intro b hb
      rcases List.mem_cons.mp hb with rfl | hb
      · exact hxy
      · exact le_trans hxy (hy b hb)
    · rw [insortKey, if_neg hxy]
      refine List.pairwise_cons.mpr ⟨?_, ih hys⟩
      intro b hb
      rcases (mem_insortKey k x ys b).mp hb with rfl | hb
      · exact le_of_not_le hxy
      · exact hy b hb

theorem pairwise_isortKey (k : α → Nat) (l : List α) :
    (isortKey k l).Pairwise (fun a b => k a ≤ k b) := by
  induction l with
  | nil => simp [isortKey]
  | cons x xs ih => exact pairwise_insortKey k x _ ih

theorem pairwise_insortKeyRev (k : α → Nat) (x : α) (l : List α)
    (h : l.Pairwise (fun a b => k b ≤ k a)) :
    (insortKeyRev k x l).Pairwise (fun a b => k b ≤ k a) := by
  induction l with
  | nil => simp [insortKeyRev]
  | cons y ys ih =>
    rcases List.pairwise_cons.mp h with ⟨hy, hys⟩
    by_cases hxy : k y ≤ k x
    · rw [insortKeyRev, if_pos hxy]
      refine List.pairwise_cons.mpr ⟨?_, h⟩
      intro b hb
      rcases List.mem_cons.mp hb with rfl | hb
      · exact hxy
      · exact le_trans (hy b hb) hxy
    · rw [insortKeyRev, if_neg hxy]
      refine List.pairwise_cons.mpr ⟨?_, ih hys⟩
      intro b hb
      rcases (mem_insortKeyRev k x ys b).mp hb with rfl | hb
      · exact le_of_lt (lt_of_not_le hxy)
      · exact hy b hb

theorem pairwise_isortKeyRev (k : α → Nat) (l : List α) :
    (isortKeyRev k l).Pairwise (fun a b => k b ≤ k a) := by
  induction l with
  | nil => simp [isortKeyRev]
  | cons x xs ih => exact pairwise_insortKeyRev k x _ ih

/-- The head of the ascending stable sort has a minimal key. -/
theorem isortKey_head_min (k : α → Nat) (l : List α) (x : α) (xs : List α)
    (hsort : isortKey k l = x :: xs) (a : α) (ha : a ∈ l) : k x ≤ k a := by
  have hmem : a ∈ isortKey k l := (mem_isortKey k l a).mpr ha
  rw [hsort] at hmem
  rcases List.mem_cons.mp hmem with rfl | hmem
  · exact le_refl _
  · have := pairwise_isortKey k l
    rw [hsort] at this
    exact (List.pairwise_cons.mp this).1 a hmem

theorem isortKey_nil_iff (k : α → Nat) (l : List α) :
    isortKey k l = [] ↔ l = [] := by
  cases l with
  | nil => simp [isortKey]
  | cons x xs =>
    simp only [isortKey]
    constructor
    · intro h
      cases hs : isortKey k xs with
      | nil => simp [hs, insortKey] at h
      | cons y ys =>
        rw [hs] at h
        by_cases hk : k x ≤ k y <;> simp [insortKey, hk] at h
    · intro h
      cases h

/-- The head of the descending stable sort has a maximal key. -/
theorem isortKeyRev_head_max (k : α → Nat) (l : List α) (x : α) (xs : List α)
    (hsort : isortKeyRev k l = x :: xs) (a : α) (ha : a ∈ l) : k a ≤ k x := by
  have hmem : a ∈ isortKeyRev k l := (mem_isortKeyRev k l a).mpr ha
  rw [hsort] at hmem
  rcases List.mem_cons.mp hmem with rfl | hmem
  · exact le_refl _
  · have := pairwise_isortKeyRev k l
    rw [hsort] at this
    exact (List.pairwise_cons.mp this).1 a hmem

theorem findSub_some_prefix (h n : Str) (i : Nat) (hf : findSub h n = some i) :
    n <+: h.drop i := by
  induction h generalizing i with
  | nil =>
    rw [findSub] at hf
    by_cases hp : n.isPrefixOf ([] : Str)
    · rw [if_pos hp] at hf
      cases hf
      simpa using List.isPrefixOf_iff_prefix.mp hp
    · rw [if_neg hp] at hf
      cases hf
  | cons a t ih =>
    rw [findSub] at hf
    by_cases hp : n.isPrefixOf (a :: t)
    · rw [if_pos hp] at hf
      cases hf
      simpa using List.isPrefixOf_iff_prefix.mp hp
    · rw [if_neg hp] at hf
      simp only [Option.map_eq_some'] at hf
      obtain ⟨j, hj, rfl⟩ := hf
      simpa using ih j hj

theorem findSub_isSome_of_prefix (h n : Str) (i : Nat) (hp : n <+: h.drop i) :
    (findSub h n).isSome := by
  induction h generalizing i with
  | nil =>
    simp only [List.drop_nil] at hp
    have : n = [] := List.prefix_nil.mp hp
    subst this
    rw [findSub, if_pos (by simp [List.isPrefixOf])]
    rfl
  | cons a t ih =>
    by_cases hpre : n.isPrefixOf (a :: t)
    · rw [findSub, if_pos hpre]; rfl
    · rw [findSub, if_neg hpre]
      cases i with
      | zero =>
        exact absurd (List.isPrefixOf_iff_prefix.mpr (by simpa using hp)) hpre
      | succ j =>
        have := ih j (by simpa using hp)
        simpa [Option.isSome_map] using this

theorem prefix_drop_slice (h n : Str) (i : Nat) (hp : n <+: h.drop i) :
    pySlice h i (i + n.length) = n := by
  obtain ⟨t, ht⟩ := hp
  rw [pySlice, ← ht]
  have : i + n.length - i = n.length := by omega
  rw [this, List.take_left]

/-- An element of the list is a contiguous substring of the joined list. -/
theorem mem_infix_joinSep (sep : Str) (l : List Str) (c : Str) (hc : c ∈ l) :
    c <:+: joinSep sep l := by
  induction l with
  | nil => cases hc
  | cons x rest ih =>
    rcases List.mem_cons.mp hc with rfl | hc
    · cases rest with
      | nil => simp [joinSep]
      | cons y t =>
        rw [joinSep]
        exact ⟨[], sep ++ joinSep sep (y :: t), by simp⟩
    · have hne : rest ≠ [] := List.ne_nil_of_mem hc
      obtain ⟨y, t, rfl⟩ := List.exists_cons_of_ne_nil hne
      rw [joinSep]
      obtain ⟨s₁, s₂, hs⟩ := ih hc
      exact ⟨x ++ sep ++ s₁, s₂, by rw [← hs]; simp⟩

theorem infix_findSub_isSome (h n : Str) (hi : n <:+: h) : (findSub h n).isSome := by
  obtain ⟨s, t, hs⟩ := hi
  apply findSub_isSome_of_prefix h n s.length
  rw [← hs, List.append_assoc, List.drop_append_of_le_length (le_refl _)]
  simpa using List.prefix_append n t

/-- Round-trip through two successful finds: if `r` occurs at `p` in `h`
and `n` occurs at `o` in `r`, then the slice of `h` at `p + o` of the
length of `n` is `n`. -/
theorem findSub_comp_slice (h r n : Str) (p o : Nat)
    (hp : findSub h r = some p) (ho : findSub r n = some o) :
    pySlice h (p + o) (p + o + n.length) = n := by
  have h1 : r <+: h.drop p := findSub_some_prefix h r p hp
  have h2 : n <+: r.drop o := findSub_some_prefix r n o ho
  by_cases hor : o ≤ r.length
  · apply prefix_drop_slice
    obtain ⟨t, ht⟩ := h1
    have hdd : h.drop (p + o) = r.drop o ++ t := by
      have e1 : h.drop (p + o) = (h.drop p).drop o := by
        rw [List.drop_drop, Nat.add_comm]
      rw [e1, ← ht, List.drop_append_of_le_length hor]
    rw [hdd]
    exact h2.trans (List.prefix_append _ t)
  · have hn : n = [] := by
      have hnil : r.drop o = [] := List.drop_eq_nil_of_le (by omega)
      rw [hnil] at h2
      exact List.prefix_nil.mp h2
    subst hn
    simp [pySlice]

theorem is_stop_eq_false (word : Stanza.Word) (stopwords : List Str) :
    AnswerExtraction.is_stop word stopwords = false := by
  simp [AnswerExtraction.is_stop, AnswerExtraction.pyEqWordStr]

/-- Bridge between the Python test `h.find(n) != -1` and the
optional-result search. -/
theorem pyFind_bne_neg_one (h n : Str) :
    (pyFind h n != -1) = (findSub h n).isSome := by
  rw [pyFind]
  cases hf : findSub h n with
  | none => simp
  | some i =>
    simp only [Option.isSome_some]
    have : ((i : Int) == -1) = false := by
      simp only [beq_eq_false_iff_ne, ne_eq]
      omega
    simp [bne, this]

/-- Replacing the first occurrence of a string by itself is the
identity (`clause.replace(answer.text, answer.text, 1)` is a no-op). -/
theorem replaceFirst_self (s a : Str) : replaceFirst s a a = s := by
  cases hf : findSub s a with
  | none => rw [replaceFirst, hf]
  | some i =>
    rw [replaceFirst, hf]
    show s.take i ++ a ++ s.drop (i + a.length) = s
    obtain ⟨t, ht⟩ := findSub_some_prefix s a i hf
    have hdd : s.drop (i + a.length) = (s.drop i).drop a.length := by
      rw [List.drop_drop, Nat.add_comm]
    have hdt : s.drop (i + a.length) = t := by
      rw [hdd, ← ht, List.drop_left]
    rw [hdt, List.append_assoc, ht, List.take_append_drop]

theorem answer_rank_eq_nil_iff (pos : Str → List Stanza.Word) (stw : List Str)
    (ans q : Str) (ctx : List Str) :
    AnswerExtraction.answer_rank pos stw ans q ctx = [] ↔
      ∀ c ∈ ctx, findSub c ans = none := by
  simp only [AnswerExtraction.answer_rank, List.map_eq_nil_iff, List.filter_eq_nil_iff]
  constructor
  · intro hall c hc
    have h2 := hall c hc
    rw [pyFind_bne_neg_one] at h2
    exact Option.not_isSome_iff_eq_none.mp (by simpa using h2)
  · intro hall c hc
    rw [pyFind_bne_neg_one, hall c hc]
    simp

theorem get_answer_start_of_contains (pos : Str → List Stanza.Word) (stw : List Str)
    (ans q : Str) (ctx : List Str) (c : Str) (hc : c ∈ ctx)
    (hcontains : (findSub c ans).isSome) :
    ∃ p o : Nat,
      AnswerExtraction.get_answer_start pos stw ans q ctx = ((p + o : Nat) : Int) ∧
      pySlice (joinSep [' '] ctx) (p + o) (p + o + ans.length) = ans := by
  have hrank_ne : AnswerExtraction.answer_rank pos stw ans q ctx ≠ [] := by
    rw [Ne, answer_rank_eq_nil_iff]
    intro hall
    rw [hall c hc] at hcontains
    simp at hcontains
  cases hs : isortKey Prod.fst (AnswerExtraction.answer_rank pos stw ans q ctx) with
  | nil => exact absurd ((isortKey_nil_iff _ _).mp hs) hrank_ne
  | cons hd tl =>
    obtain ⟨sc, refined⟩ := hd
    have hmem : (sc, refined) ∈
        isortKey Prod.fst (AnswerExtraction.answer_rank pos stw ans q ctx) := by
      rw [hs]; exact List.mem_cons_self _ _
    have hmem2 := (mem_isortKey _ _ _).mp hmem
    rw [AnswerExtraction.answer_rank] at hmem2
    simp only [List.mem_map] at hmem2
    obtain ⟨cf, hcf_mem, heq⟩ := hmem2
    have hcfr : cf = refined := congrArg Prod.snd heq
    subst hcfr
    have hfmem := List.mem_filter.mp hcf_mem
    have hcf_some : (findSub cf ans).isSome := by
      rw [← pyFind_bne_neg_one]; exact hfmem.2
    have hinfix : cf <:+: joinSep [' '] ctx := mem_infix_joinSep _ _ _ hfmem.1
    obtain ⟨p, hp⟩ := Option.isSome_iff_exists.mp (infix_findSub_isSome _ _ hinfix)
    obtain ⟨o, ho⟩ := Option.isSome_iff_exists.mp hcf_some
    refine ⟨p, o, ?_, findSub_comp_slice _ _ _ p o hp ho⟩
    rw [AnswerExtraction.get_answer_start, hs]
    show pyFind (joinSep [' '] ctx) cf + pyFind cf ans = ((p + o : Nat) : Int)
    rw [pyFind, pyFind, hp, ho]
    push_cast
    ring

theorem get_answer_start_eq_neg_one_iff (pos : Str → List Stanza.Word)
    (stw : List Str) (ans q : Str) (ctx : List Str) :
    AnswerExtraction.get_answer_start pos stw ans q ctx = -1 ↔
      ∀ c ∈ ctx, findSub c ans = none := by
  constructor
  · intro h c hc
    by_contra hne
    obtain ⟨p, o, hval, _⟩ := get_answer_start_of_contains pos stw ans q ctx c hc
      (Option.ne_none_iff_isSome.mp hne)
    rw [hval] at h
    omega
  · intro hall
    rw [AnswerExtraction.get_answer_start,
      (answer_rank_eq_nil_iff pos stw ans q ctx).mpr hall]
    rfl

/-- C9 (amended): on the spec's worked example the SCRIPT aligner
(`AnswerExtractor.get_answer_start` of `answer_extraction.py`) returns
offset 14, the position of `5 nam tu` in the space-joined context, for
every annotation function, stopword list and question: the first
segment is the only answer-containing candidate, so the scores never
matter. -/
theorem c9_script_returns_14 (pos : Str → List Stanza.Word)
    (stopwords : List Str) (question : Str) :
    AnswerExtraction.get_answer_start pos stopwords exAns9 question exCtx9 = 14 := by
  have hf : exCtx9.filter (fun ctx => pyFind ctx exAns9 != -1)
      = ["Ong A bi phat 5 nam tu .".toList] := by decide
  have hrank : AnswerExtraction.answer_rank pos stopwords exAns9 question exCtx9
      = [(AnswerExtraction.segScore pos stopwords
            (AnswerExtraction.q_tokens pos stopwords question)
            "Ong A bi phat 5 nam tu .".toList,
          "Ong A bi phat 5 nam tu .".toList)] := by
    rw [AnswerExtraction.answer_rank, hf]
    rfl
  rw [AnswerExtraction.get_answer_start, hrank]
  show pyFind (joinSep [' '] exCtx9) "Ong A bi phat 5 nam tu .".toList
      + pyFind "Ong A bi phat 5 nam tu .".toList exAns9 = 14
  decide

/-- C9 (counterexample): the construct-library
`get_answer_start` (`modules/construct/utils.py`), also cited by the
claim, does not return offset 14 on the same example: with a question
whose lemma `khang` occurs only in the second segment, the top-scoring
segment is the second, which does not contain the answer, so the
returned pair is `(1, -1)` — the claim's "for any question" fails for
this implementation. -/
theorem c9_construct_counterexample :
    Construct.get_answer_start exPos9 [] exAns9 "q".toList exCtx9
        = Except.ok ((1 : Nat), (-1 : Int)) ∧ ((-1 : Int) ≠ 14) :=
  ⟨by decide, by decide⟩

/-- C10: for every `span_type` whose uppercasing is not `ALL`,
`AnswerExtractor.extract` evaluates the never-assigned attribute
`self.span_type`, and the resulting `AttributeError` is caught and only
logged: no `extract_answer` call (hence no extraction and no output
file) happens. -/
theorem c10_extract_attribute_error (st : Str)
    (h : strUpper st ≠ "ALL".toList) :
    AnswerExtraction.extract st
        = [AnswerExtraction.Action.logError PyError.attributeError] ∧
    ∀ t, AnswerExtraction.Action.extract_answer t ∉ AnswerExtraction.extract st := by
  have he : AnswerExtraction.extract st
      = [AnswerExtraction.Action.logError PyError.attributeError] := by
    rw [AnswerExtraction.extract, if_neg h]
    rfl
  refine ⟨he, fun t hmem => ?_⟩
  rw [he] at hmem
  simp at hmem

/-- Witness for C10 at the concrete span type `NE`. -/
theorem c10_witness :
    AnswerExtraction.extract "NE".toList
        = [AnswerExtraction.Action.logError PyError.attributeError] ∧
    ∀ t, AnswerExtraction.Action.extract_answer t
        ∉ AnswerExtraction.extract "NE".toList :=
  c10_extract_attribute_error "NE".toList (by decide)

/-- C5: the clause branch of `extract_answer_ne` replaces the first
occurrence of the entity text BY THE ENTITY TEXT ITSELF
(`clause.replace(answer.text, answer.text, 1)`, line 309), a no-op:
the synthesized question equals the matching clause unchanged, and on
the concrete clause `Ong A bi phat` with entity text `Ong A` the
returned question still contains the entity text (at offset 0) instead
of the type label — contradicting the claim.  The parallel
`constructor.py` branch substitutes `answer.type`, showing the claimed
behaviour is the intent and line 309 a slip. -/
theorem c5_ne_replace_noop :
    (∀ (clauses : List Str) (a : Str),
        AnswerExtraction.ne_question_from_clauses clauses a
          = clauses.find? (fun clause => pyFind clause a != -1)) ∧
    AnswerExtraction.ne_question_from_clauses exClauses5 exAns5
        = some "Ong A bi phat".toList ∧
    pyFind "Ong A bi phat".toList exAns5 = 0 := by
  refine ⟨fun clauses a => ?_, by decide, by decide⟩
  rw [AnswerExtraction.ne_question_from_clauses]
  cases hf : clauses.find? (fun clause => pyFind clause a != -1) with
  | none => rfl
  | some c => simp [replaceFirst_self]

/-- C7: the stopword test is never satisfied — `is_stop` receives the
stanza `Word` object, not a string, so `word in STOPWORDS` is always
`False`; at the concrete input the question-token set Q CONTAINS the
lemma of a word whose text is the stopword `va`, and that word also
contributes 1 to a segment score, contradicting the claim that
stopword tokens contribute to neither. -/
theorem c7_stopwords_not_excluded :
    (∀ (w : Stanza.Word) (stw : List Str),
        AnswerExtraction.is_stop w stw = false) ∧
    (∀ question : Str,
        AnswerExtraction.q_tokens exPos7 exStw7 question = ["va".toList]) ∧
    "va".toList ∈ exStw7 ∧
    (∀ ctx : Str,
        AnswerExtraction.segScore exPos7 exStw7 ["va".toList] ctx = 1) :=
  ⟨is_stop_eq_false, fun _ => rfl, by decide, fun _ => rfl⟩

/-- C4: on the spec's own comma-merge example (fragments `a` and
`longer fragment here`, threshold 5) the script merges by CHARACTER
length (hard-coded 10, not a word count), and the shared index does not
stop the outer loop from revisiting the consumed fragment: the output
contains the merged fragment (only 4 words, below the claimed 5-word
minimum for a non-final emitted fragment) AND the consumed fragment
again on its own.  The construct-library copy interpolates the raw
`enumerate` tuple into the clause text and consumes nothing. -/
theorem c4_comma_merge_diverges :
    AnswerExtraction.extract_comma_clauses exTreeC4
        = ["a, longer fragment here".toList, " longer fragment here".toList] ∧
    (pyWords "a, longer fragment here".toList).length = 4 ∧
    Construct.extract_clauses_comma "a, longer fragment here".toList 5
        = ["a".toList ++ [' ', ',', ' ']
            ++ Construct.reprPair 0 "longer fragment here".toList,
           "longer fragment here".toList] :=
  ⟨by decide, by decide, by decide⟩

/-- C3 (counterexample): the construct-library `extract_clauses` sorts
with `reverse=True`; on a sentence whose root `S` (five leaves)
contains a nested `S` (four leaves) the returned clause list is
strictly DECREASING in length, refuting the non-decreasing claim for
this cited implementation. -/
theorem c3_construct_counterexample :
    Construct.extract_clauses [exSentC3]
        = ["a b c d e".toList, "a b c d".toList] ∧
    ("a b c d".toList).length < ("a b c d e".toList).length :=
  ⟨by decide, by decide⟩

/-- C3 (amended): the SCRIPT `extract_clauses` returns clauses in
non-decreasing length order, while the construct-library version
returns them in non-increasing order (`reverse=True`). -/
theorem c3_sorted_by_length :
    (∀ sents : List Stanza.Tree,
        (AnswerExtraction.extract_clauses sents).Pairwise
          (fun a b => a.length ≤ b.length)) ∧
    (∀ sents : List Construct.CSentence,
        (Construct.extract_clauses sents).Pairwise
          (fun a b => b.length ≤ a.length)) :=
  ⟨fun _ => pairwise_isortKey _ _, fun _ => pairwise_isortKeyRev _ _⟩

/-- C2 (amended): the SCRIPT `get_answer_start` returns `-1` iff no
context segment contains the answer, and a non-negative offset as soon
as one does. -/
theorem c2_neg_one_iff_no_segment (pos : Str → List Stanza.Word)
    (stw : List Str) (ans q : Str) (ctx : List Str) :
    (AnswerExtraction.get_answer_start pos stw ans q ctx = -1 ↔
      ∀ c ∈ ctx, findSub c ans = none) ∧
    (∀ c ∈ ctx, (findSub c ans).isSome →
      0 ≤ AnswerExtraction.get_answer_start pos stw ans q ctx) := by
  refine ⟨get_answer_start_eq_neg_one_iff pos stw ans q ctx, fun c hc hsome => ?_⟩
  obtain ⟨p, o, hval, _⟩ :=
    get_answer_start_of_contains pos stw ans q ctx c hc hsome
  rw [hval]
  omega

/-- Witness for C2 on the worked example: the first segment contains
the answer, so the offset is non-negative. -/
theorem c2_witness :
    (0 : Int) ≤ AnswerExtraction.get_answer_start exPosEmpty [] exAns9
        "q".toList exCtx9 :=
  (c2_neg_one_iff_no_segment exPosEmpty [] exAns9 "q".toList exCtx9).2
    "Ong A bi phat 5 nam tu .".toList (by decide) (by decide)

/-- C2 (counterexample): the construct-library `get_answer_start`
scores every segment (no containment filter) and returns
`ctx.find(answer)` of the top-scoring segment only: with an empty
question-token list both segments score 0, the stable descending sort
keeps the first segment, and the returned start is `-1` although the
second segment contains the answer — refuting the claimed equivalence
for this cited implementation. -/
theorem c2_construct_counterexample :
    Construct.get_answer_start exPosEmpty [] "x".toList "q".toList
        ["zz".toList, "ax".toList] = Except.ok ((0 : Nat), (-1 : Int)) ∧
    (findSub "ax".toList "x".toList).isSome :=
  ⟨by decide, by decide⟩

/-- C1 (amended): every QA pair emitted by the script emission loop of
`extract_answer_pos` has a non-negative start offset (pairs with `-1`
are dropped by the `continue`), and the space-joined context sliced at
that offset reproduces the answer text exactly. -/
theorem c1_round_trip_script (pos : Str → List Stanza.Word) (stw : List Str)
    (clauses context spans : List Str) (span_type : Str) (aid : Nat)
    (qa : AnswerExtraction.QA)
    (hqa : qa ∈ AnswerExtraction.qas_for_summary pos stw clauses context
        span_type aid spans) :
    qa.answer_start ≠ -1 ∧
    ∃ s : Nat, qa.answer_start = (s : Int) ∧
      pySlice (joinSep [' '] context) s (s + qa.answer.length) = qa.answer := by
  rw [AnswerExtraction.qas_for_summary] at hqa
  obtain ⟨ans, hans_mem, hps⟩ := List.mem_filterMap.mp hqa
  simp only [AnswerExtraction.processSpanAnswer] at hps
  split at hps
  · exact absurd hps (by simp)
  · split at hps
    · exact absurd hps (by simp)
    · split at hps
      · exact absurd hps (by simp)
      · split at hps
        · exact absurd hps (by simp)
        · rename_i hlen clause hfind hqne hstart
          rw [Option.some_inj] at hps
          subst hps
          have hne : ¬ ∀ c ∈ context, findSub c ans = none := fun hall =>
            hstart ((get_answer_start_eq_neg_one_iff pos stw ans
              (replaceFirst clause ans "PLACEHOLDER".toList) context).mpr hall)
          push_neg at hne
          obtain ⟨c, hc, hcne⟩ := hne
          obtain ⟨p, o, hval, hslice⟩ := get_answer_start_of_contains pos stw ans
            (replaceFirst clause ans "PLACEHOLDER".toList) context c hc
            (Option.ne_none_iff_isSome.mp hcne)
          refine ⟨?_, p + o, hval, hslice⟩
          rw [hval]
          show ((p + o : Nat) : Int) ≠ -1
          omega

/-- Witness for C1 at a concrete input: the span `x` with clause `axb`
and context segments `zz` and `ax` is emitted with start 4 and
round-trips through the joined context. -/
theorem c1_witness :
    (⟨"aPLACEHOLDERb".toList, "x".toList, "NP".toList, 4, 0⟩ :
        AnswerExtraction.QA).answer_start ≠ -1 ∧
    ∃ s : Nat,
      (⟨"aPLACEHOLDERb".toList, "x".toList, "NP".toList, 4, 0⟩ :
          AnswerExtraction.QA).answer_start = (s : Int) ∧
      pySlice (joinSep [' '] ["zz".toList, "ax".toList]) s
          (s + (⟨"aPLACEHOLDERb".toList, "x".toList, "NP".toList, 4, 0⟩ :
              AnswerExtraction.QA).answer.length)
        = (⟨"aPLACEHOLDERb".toList, "x".toList, "NP".toList, 4, 0⟩ :
            AnswerExtraction.QA).answer :=
  c1_round_trip_script exPosEmpty [] ["axb".toList] ["zz".toList, "ax".toList]
    ["x".toList] "NP".toList 0 _ (by decide)

/-- C1 (counterexample): the construct pipeline
(`QAConstruct.__call__` with `get_answer_start` of
`modules/construct/utils.py`), also cited by the claim, emits a pair
whose recorded start offset is local to the chosen segment: on clauses
`[yx]`, entity `x` of type `T` and context `[zz, ax]` it appends a pair
with start 1, but slicing the space-joined context at 1 yields `z`, not
the answer `x` — refuting the claimed round trip against the
concatenated context. -/
theorem c1_construct_counterexample :
    Construct.ne_step exPosA [] ["yx".toList] [] ["zz".toList, "ax".toList]
        exEntC1 = Except.ok (some exPairC1) ∧
    exPairC1.start = 1 ∧
    pySlice (joinSep [' '] ["zz".toList, "ax".toList]) 1
        (1 + exPairC1.answer.length) ≠ exPairC1.answer :=
  ⟨by decide, by decide, by decide⟩

mutual

/-- Characterisation of the script span extractor `extract_pos`: it
collects, in postorder (each node after its children, so matching
descendants precede their matching ancestors), the rendering of every
non-leaf node whose uppercased label equals the tag. -/
theorem extract_pos_eq_post : ∀ (tag : Str) (t : Stanza.Tree),
    AnswerExtraction.extract_pos tag t
      = ((subtreesPost t).filter (tagMatch tag)).map renderNode
  | tag, .mk lab .nil => by
    simp [AnswerExtraction.extract_pos, subtreesPost, subtreesPostList, tagMatch,
      Stanza.Tree.isLeaf]
  | tag, .mk lab (.cons c cs) => by
    rw [AnswerExtraction.extract_pos, extract_posList_eq_post tag (.cons c cs),
      subtreesPost, List.filter_append, List.map_append]
    congr 1
    by_cases h : tag = strUpper lab
    · rw [if_pos h]
      have ht : tagMatch tag (.mk lab (.cons c cs)) = true := by
        simp [tagMatch, Stanza.Tree.isLeaf, Stanza.Tree.label, h]
      simp [ht, renderNode, Stanza.leafLabels]
    · rw [if_neg h]
      have ht : tagMatch tag (.mk lab (.cons c cs)) = false := by
        simp [tagMatch, Stanza.Tree.isLeaf, Stanza.Tree.label]
        exact fun hh => absurd hh h
      simp [ht]

/-- Characterisation of the child-loop of `extract_pos`. -/
theorem extract_posList_eq_post : ∀ (tag : Str) (ts : Stanza.TreeList),
    AnswerExtraction.extract_posList tag ts
      = ((subtreesPostList ts).filter (tagMatch tag)).map renderNode
  | tag, .nil => by
    simp [AnswerExtraction.extract_posList, subtreesPostList]
  | tag, .cons t ts => by
    rw [AnswerExtraction.extract_posList, extract_pos_eq_post tag t,
      extract_posList_eq_post tag ts, subtreesPostList, List.filter_append,
      List.map_append]

end

mutual

/-- Characterisation of the construct-library span extractor `get_pos`:
it collects, in preorder (each node before its children, so matching
ancestors precede their matching descendants), the rendering of every
non-leaf node whose uppercased label equals the tag. -/
theorem get_pos_eq_pre : ∀ (tag : Str) (t : Stanza.Tree),
    Construct.get_pos tag t
      = ((subtreesPre t).filter (tagMatch tag)).map renderNode
  | tag, .mk lab .nil => by
    simp [Construct.get_pos, subtreesPre, subtreesPreList, tagMatch,
      Stanza.Tree.isLeaf]
  | tag, .mk lab (.cons c cs) => by
    rw [Construct.get_pos, get_posList_eq_pre tag (.cons c cs), subtreesPre]
    by_cases h : tag = strUpper lab
    · rw [if_pos h]
      have ht : tagMatch tag (.mk lab (.cons c cs)) = true := by
        simp [tagMatch, Stanza.Tree.isLeaf, Stanza.Tree.label, h]
      simp [List.filter_cons, ht, Construct.tree_to_text, renderNode,
        Stanza.leafLabels]
    · rw [if_neg h]
      have ht : tagMatch tag (.mk lab (.cons c cs)) = false := by
        simp [tagMatch, Stanza.Tree.isLeaf, Stanza.Tree.label]
        exact fun hh => absurd hh h
      simp [List.filter_cons, ht]

/-- Characterisation of the child-loop of `get_pos`. -/
theorem get_posList_eq_pre : ∀ (tag : Str) (ts : Stanza.TreeList),
    Construct.get_posList tag ts
      = ((subtreesPreList ts).filter (tagMatch tag)).map renderNode
  | tag, .nil => by
    simp [Construct.get_posList, subtreesPreList]
  | tag, .cons t ts => by
    rw [Construct.get_posList, get_pos_eq_pre tag t, get_posList_eq_pre tag ts,
      subtreesPreList, List.filter_append, List.map_append]

end

/-- C6 (amended): both span extractors collect the space-joined leaf
text of every NON-LEAF node whose uppercased label equals the tag,
nested same-tag matches captured independently; the script
`extract_pos` lists them in postorder (each matching descendant before
its matching ancestor), while the construct-library `get_pos` lists
them in preorder (each matching ancestor before its matching
descendants). -/
theorem c6_span_extractor_characterisation :
    (∀ (tag : Str) (t : Stanza.Tree),
        AnswerExtraction.extract_pos tag t
          = ((subtreesPost t).filter (tagMatch tag)).map renderNode) ∧
    (∀ (tag : Str) (t : Stanza.Tree),
        Construct.get_pos tag t
          = ((subtreesPre t).filter (tagMatch tag)).map renderNode) :=
  ⟨extract_pos_eq_post, get_pos_eq_pre⟩

/-- C6 (counterexample): on the nested tree `NP [NP [a], b]` the
construct-library `get_pos` (cited by the claim) returns the ANCESTOR
rendering `a b` before the descendant rendering `a`, the opposite of
the claimed order; and a bare leaf labelled `np` matches the uppercased
tag `NP` yet contributes nothing in either extractor, against the
claim's "every node". -/
theorem c6_counterexample :
    Construct.get_pos "NP".toList exT6 = ["a b".toList, "a".toList] ∧
    AnswerExtraction.extract_pos "NP".toList exT6 = ["a".toList, "a b".toList] ∧
    (["a b".toList, "a".toList] : List Str) ≠ ["a".toList, "a b".toList] ∧
    AnswerExtraction.extract_pos "NP".toList exLeaf6 = [] ∧
    Construct.get_pos "NP".toList exLeaf6 = [] ∧
    strUpper exLeaf6.label = "NP".toList :=
  ⟨by decide, by decide, by decide, by decide, by decide, by decide⟩

/-- C8 (amended): the script `get_answer_start` selects a candidate of
MINIMAL score (the head of the stable ascending sort of the rank list),
whereas the cited library version (`models/extract/extractor.py`) never
selects by maximal score: its `q_tokens` loop iterates over the
CHARACTERS of the question and calls `is_stop` with missing arguments,
raising `TypeError` for every non-empty question, so on the concrete
input with two answer-containing segments of distinct scores the script
returns offset 5 (the minimal-score segment) while the library raises —
the two functions are not extensionally equal. -/
theorem c8_ranking_divergence :
    (∀ (pos : Str → List Stanza.Word) (stw : List Str) (ans q : Str)
        (ctx : List Str) (s : Nat) (refined : Str) (rest : List (Nat × Str)),
        isortKey Prod.fst (AnswerExtraction.answer_rank pos stw ans q ctx)
            = (s, refined) :: rest →
        ∀ e ∈ AnswerExtraction.answer_rank pos stw ans q ctx, s ≤ e.1) ∧
    (∀ (pos : Str → List Stanza.Word) (ans : Str) (c : Char) (q : Str)
        (ctx : List Str),
        Extract.get_answer_start pos ans (c :: q) ctx
          = Except.error PyError.typeError) ∧
    AnswerExtraction.get_answer_start exPos8 [] "x".toList "q".toList exCtx8 = 5 ∧
    Extract.get_answer_start exPos8 "x".toList "q".toList exCtx8
        = Except.error PyError.typeError ∧
    Except.ok (AnswerExtraction.get_answer_start exPos8 [] "x".toList "q".toList
        exCtx8) ≠ Extract.get_answer_start exPos8 "x".toList "q".toList exCtx8 := by
  refine ⟨?_, ?_, by decide, by decide, by decide⟩
  · intro pos stw ans q ctx s refined rest hs e he
    exact isortKey_head_min Prod.fst _ (s, refined) rest hs e he
  · intro pos ans c q ctx
    rfl

/-- Witness for C8: the minimal-score selection applied on the concrete
rank list of `exCtx8` (head score 0 against the other candidate's
score 1), and the library error at a concrete non-empty question. -/
theorem c8_witness :
    (0 : Nat) ≤ ((1 : Nat), "ax b".toList).1 ∧
    Extract.get_answer_start exPosEmpty "x".toList ['q'] ["x".toList]
        = Except.error PyError.typeError := by
  constructor
  · exact c8_ranking_divergence.1 exPos8 [] "x".toList "q".toList exCtx8 0
      "x c".toList [(1, "ax b".toList)] (by decide) (1, "ax b".toList) (by decide)
  · exact c8_ranking_divergence.2.1 exPosEmpty "x".toList 'q' [] ["x".toList]

/-- C8 (counterexample): an input with two answer-containing segments
of distinct scores (1 for `ax b`, 0 for `x c` under `exPos8`), on which
the library version (`models/extract/extractor.py`) does not return the
offset of a maximal-score segment — it raises `TypeError` before any
comparison — refuting the claimed max-score selection. -/
theorem c8_library_counterexample :
    AnswerExtraction.answer_rank exPos8 [] "x".toList "q".toList exCtx8
        = [(1, "ax b".toList), (0, "x c".toList)] ∧
    (1 : Nat) ≠ 0 ∧
    Extract.get_answer_start exPos8 "x".toList "q".toList exCtx8
        = Except.error PyError.typeError :=
  ⟨by decide, by decide, by decide⟩
